import Mathlib

/-!
# httpcluster: a ring of HTTP endpoints with fail-over

A shallow embedding of `cluster.go`.

* Go pointers `*Member` are addresses into an explicit heap (`List Member`);
  `none` is the nil pointer.  `new(Member)` allocates at the end of the heap.
* A nil dereference (a Go run-time panic) is the outer `none` of an operation's
  result.
* `go func() { ... }` in `MarkDown` is recorded as a pending probe bound to the
  member's address; the step a probe takes on a 200 response is `probeSuccess`.
* The reader/writer lock is not modelled: every operation is one atomic step.
* `net/url.Parse` is a parameter of `NewHttpCluster`; `strings.SplitN` with
  separator `","` and count `-1` is `SplitN`.
* `cluster.size` is a Go `int`; it counts the pieces of one string, so it is a
  `Nat` here.
-/

namespace HttpCluster

/-! ## Data model -/

/-- Go constant `MEMBER_AVAILABLE`. -/
def MEMBER_AVAILABLE : Int := 0

/-- Go constant `MEMBER_UNAVAILABLE`. -/
def MEMBER_UNAVAILABLE : Int := 1

/-- Go struct `Member`; `next` is a pointer, here an address into the heap. -/
structure Member where
  hostname : String
  status : Int
  next : Option Nat
  deriving DecidableEq, Repr

/-- Go struct `HttpCluster` (the embedded lock left out); `members` and
`active` are pointers. -/
structure Cluster where
  url : String
  members : Option Nat
  size : Nat
  protocol : String
  active : Option Nat
  healthCheckUri : String
  deriving DecidableEq, Repr

/-- A program state: the cluster, the heap its pointers refer to, and the
probe goroutines started by `MarkDown` that have not yet succeeded (each bound
to the address of its member). -/
structure State where
  cluster : Cluster
  heap : List Member
  probes : List Nat
  deriving DecidableEq, Repr

/-- The message of the error that `NewHttpCluster` returns (InvalidEndpoint). -/
def errInvalidEndpoint : String := "Invalid http cluster endpoint specified"

/-- The message of the error that `GetMember` returns (NoMembersAvailable). -/
def errNoMembers : String := "No cluster memebers available at the moment"

/-- Dereference of a pointer: `none` for nil (and for an address outside the
heap, which Go cannot produce). -/
def deref (heap : List Member) (p : Option Nat) : Option Member :=
  match p with
  | none => none
  | some a => heap[a]?

/-! ## Library functions used by the constructor -/

/-- The fields of `net/url.URL` that the constructor reads. -/
structure URL where
  Scheme : String
  Host : String
  deriving DecidableEq, Repr

/-- Pieces of a character list between commas; `cur` is the piece being read. -/
def splitComma : List Char → List Char → List (List Char)
  | [], cur => [cur]
  | c :: cs, cur => if c = ',' then cur :: splitComma cs [] else splitComma cs (cur ++ [c])

/-- Go `strings.SplitN(s, ",", -1)`: all the substrings of `s` between commas,
so one more piece than there are commas (the empty string gives one empty
piece). -/
def SplitN (s : String) : List String :=
  (splitComma s.data []).map String.mk

/-- Characters up to the first `:`, and what follows it. -/
def cutColon : List Char → List Char → Option (List Char × List Char)
  | [], _ => none
  | c :: cs, acc => if c = ':' then some (acc, cs) else cutColon cs (acc ++ [c])

/-- Characters up to the first of `/`, `?`, `#`. -/
def hostPart : List Char → List Char
  | [] => []
  | c :: cs => if c = '/' ∨ c = '?' ∨ c = '#' then [] else c :: hostPart cs

/-- A concrete URL parser for strings of the shape `scheme://host[/...]`, used
where a run needs one in place of `net/url.Parse`: the scheme is what precedes
the first `:`, the host what lies between the `//` after it and the next `/`,
`?` or `#`.  A string without `:` has the empty scheme and host; a string
starting with `:` is an error (missing scheme), as in Go.  User-info, port
checks, escapes and case folding of `net/url` are not modelled. -/
def simpleParse (s : String) : Option URL :=
  match cutColon s.data [] with
  | none => some { Scheme := "", Host := "" }
  | some ([], _) => none
  | some (sch, '/' :: '/' :: rest) => some { Scheme := String.mk sch, Host := String.mk (hostPart rest) }
  | some (sch, _) => some { Scheme := String.mk sch, Host := "" }

/-! ## The constructor -/

/-- State of the loop in `NewHttpCluster`: the cluster under construction, the
heap, and the local variable `previous`. -/
structure BuildState where
  cluster : Cluster
  heap : List Member
  previous : Option Nat
  deriving DecidableEq, Repr

/-- Assignment `p.next = v` through a pointer; `none` when `p` is nil. -/
def setNext (heap : List Member) (p : Option Nat) (v : Option Nat) : Option (List Member) :=
  match p with
  | none => none
  | some a =>
    match heap[a]? with
    | none => none
    | some m => some (heap.set a { m with next := v })

/-- Assignment `p.status = v` through a pointer; `none` when `p` is nil. -/
def setStatus (heap : List Member) (p : Option Nat) (v : Int) : Option (List Member) :=
  match p with
  | none => none
  | some a =>
    match heap[a]? with
    | none => none
    | some m => some (heap.set a { m with status := v })

/-- One iteration of `for index, host := range ...` in `NewHttpCluster`. -/
def buildStep (index : Nat) (host : String) (b : BuildState) : Option BuildState :=
  let member : Nat := b.heap.length
  let heap := b.heap ++ [{ hostname := host, status := 0, next := none }]
  let cluster := { b.cluster with size := b.cluster.size + 1 }
  if index = 0 then
    some { cluster := { cluster with members := some member, active := some member },
           heap := heap, previous := some member }
  else
    match setNext heap b.previous (some member) with
    | none => none
    | some heap1 => some { cluster := cluster, heap := heap1, previous := some member }

/-- The loop over the host pieces, from iteration `index` on. -/
def buildLoop : List String → Nat → BuildState → Option BuildState
  | [], _, b => some b
  | host :: rest, index, b =>
    match buildStep index host b with
    | none => none
    | some b1 => buildLoop rest (index + 1) b1

/-- Go `NewHttpCluster(httpClusterUrl, healthCheck)`, with `url.Parse` as the
parameter `parse`.  The result is `none` on a panic, otherwise the pair
`(cluster, err)` that Go returns (`none` for a nil component).  The parameter
`healthCheck` is not used by the source. -/
def NewHttpCluster (parse : String → Option URL) (httpClusterUrl : String) (_healthCheck : String) :
    Option (Option State × Option String) :=
  let cluster : Cluster :=
    { url := "", members := none, size := 0, protocol := "", active := none, healthCheckUri := "" }
  match parse httpClusterUrl with
  | none => some (none, some errInvalidEndpoint)
  | some u =>
    if u.Scheme ≠ "http" ∧ u.Scheme ≠ "https" then
      some (none, some errInvalidEndpoint)
    else
      let cluster := { cluster with protocol := u.Scheme }
      let cluster := { cluster with url := httpClusterUrl }
      match buildLoop (SplitN u.Host) 0 { cluster := cluster, heap := [], previous := none } with
      | none => none
      | some b =>
        match setNext b.heap b.previous b.cluster.active with
        | none => none
        | some heap => some (some { cluster := b.cluster, heap := heap, probes := [] }, none)

/-! ## The operations -/

/-- Go `Url()`. -/
def Url (s : State) : String := s.cluster.url

/-- Go `Size()`. -/
def Size (s : State) : Nat := s.cluster.size

/-- The loop of `Active()` with `n` iterations left; `member` is the local
pointer, which the loop body never changes. -/
def activeLoop (heap : List Member) (member : Option Nat) : Nat → List String → Option (List String)
  | 0, list => some list
  | n + 1, list =>
    match deref heap member with
    | none => none
    | some m =>
      if m.status = MEMBER_AVAILABLE then activeLoop heap member n (list ++ [m.hostname])
      else activeLoop heap member n list

/-- Go `Active()`; `none` on a panic. -/
def Active (s : State) : Option (List String) :=
  activeLoop s.heap s.cluster.active s.cluster.size []

/-- The loop of `NonActive()` with `n` iterations left; `member` is the local
pointer, which the loop body never changes. -/
def nonActiveLoop (heap : List Member) (member : Option Nat) : Nat → List String → Option (List String)
  | 0, list => some list
  | n + 1, list =>
    match deref heap member with
    | none => none
    | some m =>
      if m.status = MEMBER_UNAVAILABLE then nonActiveLoop heap member n (list ++ [m.hostname])
      else nonActiveLoop heap member n list

/-- Go `NonActive()`; `none` on a panic. -/
def NonActive (s : State) : Option (List String) :=
  nonActiveLoop s.heap s.cluster.active s.cluster.size []

/-- Go `GetHttpNodeURL(member)`: `fmt.Sprintf("%s://%s", protocol, hostname)`. -/
def GetHttpNodeURL (c : Cluster) (member : Member) : String :=
  c.protocol ++ "://" ++ member.hostname

/-- The loop of `GetMember()` with `n` iterations left.  The result is the
returned pair `(string, error)` and the state left behind. -/
def getMemberLoop (s : State) : Nat → Option ((String × Option String) × State)
  | 0 => some (("", some errNoMembers), s)
  | n + 1 =>
    match deref s.heap s.cluster.active with
    | none => none
    | some m =>
      if m.status = MEMBER_AVAILABLE then
        some ((GetHttpNodeURL s.cluster m, none), s)
      else
        match m.next with
        | some nx => getMemberLoop { s with cluster := { s.cluster with active := some nx } } n
        | none => some (("", some errNoMembers), s)

/-- Go `GetMember()`; `none` on a panic. -/
def GetMember (s : State) : Option ((String × Option String) × State) :=
  getMemberLoop s s.cluster.size

/-- Go `MarkDown()`; `none` on a panic.  The goroutine it starts is recorded
as a pending probe for `member`. -/
def MarkDown (s : State) : Option State :=
  match s.cluster.active with
  | none => none
  | some member =>
    match setStatus s.heap (some member) MEMBER_UNAVAILABLE with
    | none => none
    | some heap =>
      let s1 : State := { s with heap := heap, probes := s.probes ++ [member] }
      match deref s1.heap s1.cluster.active with
      | none => none
      | some m =>
        match m.next with
        | some nx => some { s1 with cluster := { s1.cluster with active := some nx } }
        | none => some s1

/-- URL requested by the probe goroutine for the member at address `a`:
`cluster.GetHttpNodeURL(member) + cluster.healthCheckUri`. -/
def probeURL (s : State) (a : Nat) : Option String :=
  match s.heap[a]? with
  | none => none
  | some m => some (GetHttpNodeURL s.cluster m ++ s.cluster.healthCheckUri)

/-- The step the `k`-th pending probe takes on a 200 response:
`member.status = MEMBER_AVAILABLE`, and the goroutine returns.  Nothing
happens when there is no such probe. -/
def probeSuccess (k : Nat) (s : State) : Option State :=
  match s.probes[k]? with
  | none => some s
  | some a =>
    match setStatus s.heap (some a) MEMBER_AVAILABLE with
    | none => none
    | some heap => some { s with heap := heap, probes := s.probes.eraseIdx k }

/-- The steps a cluster takes after construction. -/
inductive Op where
  | getMember
  | markDown
  | probeOk (k : Nat)
  deriving DecidableEq, Repr

/-- One step. -/
def applyOp (s : State) : Op → Option State
  | .getMember => (GetMember s).map (fun r => r.2)
  | .markDown => MarkDown s
  | .probeOk k => probeSuccess k s

/-- A sequence of steps, left to right. -/
def runOps : List Op → State → Option State
  | [], s => some s
  | op :: ops, s =>
    match applyOp s op with
    | none => none
    | some s1 => runOps ops s1

/-! ## Well-formed states -/

/-- Status of the member at address `i`. -/
def statusAt (s : State) (i : Nat) : Option Int :=
  (s.heap[i]?).map (fun m => m.status)

/-- Hostname of the member at address `i`. -/
def hostnameAt (s : State) (i : Nat) : Option String :=
  (s.heap[i]?).map (fun m => m.hostname)

/-- Link `next` of the member at address `i`. -/
def nextAt (s : State) (i : Nat) : Option (Option Nat) :=
  (s.heap[i]?).map (fun m => m.next)

/-- A well-formed state: the heap holds exactly the `size` members of the
ring, at least one; member `i` links to member `(i + 1) % size`; `members`
points to the first one and `active` into the ring; every status is one of
the two constants; every pending probe is bound to a member of the ring. -/
def WellFormed (s : State) : Prop :=
  0 < s.cluster.size ∧
  s.heap.length = s.cluster.size ∧
  s.cluster.members = some 0 ∧
  (∃ a, a < s.cluster.size ∧ s.cluster.active = some a) ∧
  (∀ i, i < s.cluster.size → nextAt s i = some (some ((i + 1) % s.cluster.size))) ∧
  (∀ i, i < s.cluster.size →
    statusAt s i = some MEMBER_AVAILABLE ∨ statusAt s i = some MEMBER_UNAVAILABLE) ∧
  (∀ p, p ∈ s.probes → p < s.cluster.size)

instance (s : State) : Decidable (WellFormed s) := by
  unfold WellFormed
  infer_instance

/-- The state `s` with `cluster.active` pointing to address `a`. -/
def withActive (s : State) (a : Nat) : State :=
  { s with cluster := { s.cluster with active := some a } }

/-- The test fixture `FAKE_HTTP_CLUSTER_URL`. -/
def FAKE_HTTP_CLUSTER_URL : String := "http://127.0.0.1:3000,127.0.0.1:3001"

/-- The test fixture `FAKE_HEALTH_CHECK_URI`. -/
def FAKE_HEALTH_CHECK_URI : String := "/"

/-- The two-member cluster `http://a,b` as the constructor leaves it. -/
def abFresh : State :=
  { cluster := { url := "http://a,b", members := some 0, size := 2, protocol := "http",
                 active := some 0, healthCheckUri := "" },
    heap := [{ hostname := "a", status := 0, next := some 1 },
             { hostname := "b", status := 0, next := some 0 }],
    probes := [] }

/-- Three members `a`, `b`, `c` of which `b` and `c` are down, the cursor on
`b`, and the two probes of `b` and `c` pending. -/
def abcDown : State :=
  { cluster := { url := "https://a,b,c", members := some 0, size := 3, protocol := "https",
                 active := some 1, healthCheckUri := "" },
    heap := [{ hostname := "a", status := 0, next := some 1 },
             { hostname := "b", status := 1, next := some 2 },
             { hostname := "c", status := 1, next := some 0 }],
    probes := [1, 2] }

/-- Invariant of the loop in `NewHttpCluster` once the hosts `done` have been
read: one member per host, each linked to the one allocated after it, the
last one not yet linked, and `previous` pointing to the last one. -/
def BuildInv (c0 : Cluster) (done : List String) (b : BuildState) : Prop :=
  b.cluster = { c0 with size := done.length, members := some 0, active := some 0 } ∧
  b.previous = some (done.length - 1) ∧
  b.heap.length = done.length ∧
  ∀ i, i < done.length →
    b.heap[i]? = (done[i]?).map
      (fun h => { hostname := h, status := 0,
                  next := if i + 1 < done.length then some (i + 1) else none })

/-- What the specification says `Active()` (with `status` the available
constant) and `NonActive()` (with the unavailable one) return: the hostnames of
the members with that status, met on one walk of `size` steps round the ring
from `active`. -/
def ringScan (s : State) (status : Int) : List String :=
  match s.cluster.active with
  | none => []
  | some a =>
    (List.range s.cluster.size).filterMap (fun k =>
      match s.heap[(a + k) % s.cluster.size]? with
      | none => none
      | some m => if m.status = status then some m.hostname else none)

/-- The cluster of the test fixture as the constructor leaves it. -/
def fakeFresh : State :=
  { cluster := { url := "http://127.0.0.1:3000,127.0.0.1:3001", members := some 0, size := 2,
                 protocol := "http", active := some 0, healthCheckUri := "" },
    heap := [{ hostname := "127.0.0.1:3000", status := 0, next := some 1 },
             { hostname := "127.0.0.1:3001", status := 0, next := some 0 }],
    probes := [] }

/-- The cluster `http://a,b` after one `MarkDown()`. -/
def abMarked : State :=
  { cluster := { url := "http://a,b", members := some 0, size := 2, protocol := "http",
                 active := some 1, healthCheckUri := "" },
    heap := [{ hostname := "a", status := 1, next := some 1 },
             { hostname := "b", status := 0, next := some 0 }],
    probes := [0] }

/-- The member reached from pointer `p` by following `next` links `k` times;
`none` is nil. -/
def follow (heap : List Member) : Option Nat → Nat → Option Nat
  | p, 0 => p
  | p, k + 1 =>
    match deref heap p with
    | none => none
    | some m => follow heap m.next k

/-- The ring invariant of the data model: the heap holds `size` members, each
with a non-nil `next`; following `next` from the first member `members` meets
`size` different members and is back at the first after exactly `size` steps;
`active` is one of the members met, and its `next` is not nil. -/
def IsRing (s : State) : Prop :=
  s.heap.length = s.cluster.size ∧
  (∀ (i : Nat) (m : Member), s.heap[i]? = some m → m.next ≠ none) ∧
  s.cluster.members ≠ none ∧
  (∀ k, k < s.cluster.size → follow s.heap s.cluster.members k ≠ none) ∧
  (∀ j k, j < k → k < s.cluster.size →
    follow s.heap s.cluster.members j ≠ follow s.heap s.cluster.members k) ∧
  follow s.heap s.cluster.members s.cluster.size = s.cluster.members ∧
  (∃ j, j < s.cluster.size ∧ follow s.heap s.cluster.members j = s.cluster.active) ∧
  (∃ m nx, deref s.heap s.cluster.active = some m ∧ m.next = some nx)

/-- The cluster `http://a,b` after one `MarkDown()` and the success of the
probe it started. -/
def abRecovered : State :=
  { cluster := { url := "http://a,b", members := some 0, size := 2, protocol := "http",
                 active := some 1, healthCheckUri := "" },
    heap := [{ hostname := "a", status := 0, next := some 1 },
             { hostname := "b", status := 0, next := some 0 }],
    probes := [] }

/-- The cluster `http://a,b` after two `MarkDown()`. -/
def abAllDown : State :=
  { cluster := { url := "http://a,b", members := some 0, size := 2, protocol := "http",
                 active := some 0, healthCheckUri := "" },
    heap := [{ hostname := "a", status := 1, next := some 1 },
             { hostname := "b", status := 1, next := some 0 }],
    probes := [0, 1] }

/-- The test fixture after one `MarkDown()`. -/
def fakeMarked : State :=
  { cluster := { url := "http://127.0.0.1:3000,127.0.0.1:3001", members := some 0, size := 2,
                 protocol := "http", active := some 1, healthCheckUri := "" },
    heap := [{ hostname := "127.0.0.1:3000", status := 1, next := some 1 },
             { hostname := "127.0.0.1:3001", status := 0, next := some 0 }],
    probes := [0] }

/-- The cluster the constructor returns for `http://`, whose host is empty:
one member with the empty hostname. -/
def emptyHostFresh : State :=
  { cluster := { url := "http://", members := some 0, size := 1, protocol := "http",
                 active := some 0, healthCheckUri := "" },
    heap := [{ hostname := "", status := 0, next := some 0 }],
    probes := [] }

/-! ## Basic facts -/

@[simp] theorem withActive_heap (s : State) (a : Nat) : (withActive s a).heap = s.heap := rfl

@[simp] theorem withActive_probes (s : State) (a : Nat) : (withActive s a).probes = s.probes := rfl

@[simp] theorem withActive_active (s : State) (a : Nat) :
    (withActive s a).cluster.active = some a := rfl

@[simp] theorem withActive_size (s : State) (a : Nat) :
    (withActive s a).cluster.size = s.cluster.size := rfl

@[simp] theorem withActive_protocol (s : State) (a : Nat) :
    (withActive s a).cluster.protocol = s.cluster.protocol := rfl

@[simp] theorem withActive_url (s : State) (a : Nat) :
    (withActive s a).cluster.url = s.cluster.url := rfl

@[simp] theorem withActive_members (s : State) (a : Nat) :
    (withActive s a).cluster.members = s.cluster.members := rfl

@[simp] theorem withActive_withActive (s : State) (a b : Nat) :
    withActive (withActive s a) b = withActive s b := rfl

theorem withActive_self (s : State) (a : Nat) (h : s.cluster.active = some a) :
    withActive s a = s := by
  obtain ⟨⟨u, ms, sz, pr, ac, hc⟩, hp, ps⟩ := s
  simp only [withActive] at *
  subst h
  rfl

@[simp] theorem statusAt_withActive (s : State) (a i : Nat) :
    statusAt (withActive s a) i = statusAt s i := rfl

@[simp] theorem nextAt_withActive (s : State) (a i : Nat) :
    nextAt (withActive s a) i = nextAt s i := rfl

theorem getMemberLoop_succ (s : State) (n : Nat) :
    getMemberLoop s (n + 1) =
      match deref s.heap s.cluster.active with
      | none => none
      | some m =>
        if m.status = MEMBER_AVAILABLE then some ((GetHttpNodeURL s.cluster m, none), s)
        else
          match m.next with
          | some nx => getMemberLoop (withActive s nx) n
          | none => some (("", some errNoMembers), s) := rfl

/-- The member at an address of the ring, with its link. -/
theorem WellFormed.member {s : State} (hwf : WellFormed s) {i : Nat} (hi : i < s.cluster.size) :
    ∃ m, s.heap[i]? = some m ∧ m.next = some ((i + 1) % s.cluster.size) ∧
      (m.status = MEMBER_AVAILABLE ∨ m.status = MEMBER_UNAVAILABLE) := by
  obtain ⟨_, hlen, _, _, hnext, hstat, _⟩ := hwf
  have hi2 : i < s.heap.length := by omega
  refine ⟨s.heap[i], List.getElem?_eq_getElem hi2, ?_, ?_⟩
  · have := hnext i hi
    simpa [nextAt, List.getElem?_eq_getElem hi2] using this
  · have := hstat i hi
    simpa [statusAt, List.getElem?_eq_getElem hi2] using this

theorem WellFormed.withActive {s : State} (hwf : WellFormed s) {a : Nat} (ha : a < s.cluster.size) :
    WellFormed (withActive s a) := by
  obtain ⟨h1, h2, h3, _, h5, h6, h7⟩ := hwf
  exact ⟨h1, h2, h3, ⟨a, ha, rfl⟩, h5, h6, h7⟩

/-- The scan of `GetMember` when the first available member is `k` steps ahead
of the cursor. -/
theorem getMemberLoop_found (s : State) (hwf : WellFormed s) :
    ∀ (k n a : Nat), a < s.cluster.size → k < n →
      (∀ j, j < k → statusAt s ((a + j) % s.cluster.size) ≠ some MEMBER_AVAILABLE) →
      ∀ m, s.heap[(a + k) % s.cluster.size]? = some m → m.status = MEMBER_AVAILABLE →
      getMemberLoop (withActive s a) n =
        some ((GetHttpNodeURL s.cluster m, none), withActive s ((a + k) % s.cluster.size)) := by
  intro k
  induction k with
  | zero =>
    intro n a ha hn _ m hm hav
    obtain ⟨n, rfl⟩ : ∃ n1, n = n1 + 1 := ⟨n - 1, by omega⟩
    have e : (a + 0) % s.cluster.size = a := by rw [Nat.add_zero, Nat.mod_eq_of_lt ha]
    rw [e] at hm ⊢
    rw [getMemberLoop_succ]
    simp [deref, hm, hav, GetHttpNodeURL]
  | succ k ih =>
    intro n a ha hn hbefore m hm hav
    obtain ⟨n, rfl⟩ : ∃ n1, n = n1 + 1 := ⟨n - 1, by omega⟩
    obtain ⟨m0, hm0, hnx, _⟩ := hwf.member ha
    have h0 : m0.status ≠ MEMBER_AVAILABLE := by
      have := hbefore 0 (by omega)
      rw [Nat.add_zero, Nat.mod_eq_of_lt ha] at this
      simpa [statusAt, hm0] using this
    have hlt : (a + 1) % s.cluster.size < s.cluster.size := Nat.mod_lt _ hwf.1
    have hshift : ∀ j, ((a + 1) % s.cluster.size + j) % s.cluster.size
        = (a + (j + 1)) % s.cluster.size := by
      intro j
      rw [Nat.mod_add_mod]
      congr 1
      omega
    rw [getMemberLoop_succ]
    simp only [deref, withActive_heap, withActive_active, hm0, h0, if_false, hnx,
      withActive_withActive]
    have := ih n ((a + 1) % s.cluster.size) hlt (by omega)
      (fun j hj => by rw [hshift]; exact hbefore (j + 1) (by omega))
      m (by rw [hshift]; exact hm) hav
    rw [this, hshift]

/-- The scan of `GetMember` over `n` members none of which is available. -/
theorem getMemberLoop_none (s : State) (hwf : WellFormed s) :
    ∀ (n a : Nat), a < s.cluster.size →
      (∀ j, j < n → statusAt s ((a + j) % s.cluster.size) ≠ some MEMBER_AVAILABLE) →
      getMemberLoop (withActive s a) n =
        some (("", some errNoMembers), withActive s ((a + n) % s.cluster.size)) := by
  intro n
  induction n with
  | zero =>
    intro a ha _
    rw [Nat.add_zero, Nat.mod_eq_of_lt ha]
    rfl
  | succ n ih =>
    intro a ha hall
    obtain ⟨m0, hm0, hnx, _⟩ := hwf.member ha
    have h0 : m0.status ≠ MEMBER_AVAILABLE := by
      have := hall 0 (by omega)
      rw [Nat.add_zero, Nat.mod_eq_of_lt ha] at this
      simpa [statusAt, hm0] using this
    have hlt : (a + 1) % s.cluster.size < s.cluster.size := Nat.mod_lt _ hwf.1
    have hshift : ∀ j, ((a + 1) % s.cluster.size + j) % s.cluster.size
        = (a + (j + 1)) % s.cluster.size := by
      intro j
      rw [Nat.mod_add_mod]
      congr 1
      omega
    rw [getMemberLoop_succ]
    simp only [deref, withActive_heap, withActive_active, hm0, h0, if_false, hnx,
      withActive_withActive]
    rw [ih ((a + 1) % s.cluster.size) hlt
      (fun j hj => by rw [hshift]; exact hall (j + 1) (by omega)), hshift]

theorem WellFormed.active_lt {s : State} (hwf : WellFormed s) {a : Nat}
    (ha : s.cluster.active = some a) : a < s.cluster.size := by
  obtain ⟨a1, h1, h2⟩ := hwf.2.2.2.1
  rw [h2] at ha
  cases ha
  exact h1

theorem WellFormed.status_cases {s : State} (hwf : WellFormed s) {i : Nat}
    (hi : i < s.cluster.size) :
    statusAt s i = some MEMBER_AVAILABLE ∨ statusAt s i = some MEMBER_UNAVAILABLE :=
  hwf.2.2.2.2.2.1 i hi

theorem WellFormed.unavailable_of_ne {s : State} (hwf : WellFormed s) {i : Nat}
    (hi : i < s.cluster.size) (h : statusAt s i ≠ some MEMBER_AVAILABLE) :
    statusAt s i = some MEMBER_UNAVAILABLE := by
  rcases hwf.status_cases hi with h1 | h1
  · exact absurd h1 h
  · exact h1

/-- Every ring position is some number of steps below `size` ahead of `a`. -/
theorem ring_offset {size a i : Nat} (ha : a < size) (hi : i < size) :
    ∃ k, k < size ∧ (a + k) % size = i := by
  by_cases h : a ≤ i
  · refine ⟨i - a, by omega, ?_⟩
    rw [show a + (i - a) = i by omega, Nat.mod_eq_of_lt hi]
  · refine ⟨i + size - a, by omega, ?_⟩
    rw [show a + (i + size - a) = i + size by omega, Nat.add_mod_right, Nat.mod_eq_of_lt hi]

/-- `GetMember` on a ring with an available member: the scan stops at the
first one ahead of the cursor. -/
theorem getMember_scan (s : State) (hwf : WellFormed s) (a : Nat)
    (ha : s.cluster.active = some a)
    (hex : ∃ i, i < s.cluster.size ∧ statusAt s i = some MEMBER_AVAILABLE) :
    ∃ k m, k < s.cluster.size ∧
      (∀ j, j < k → statusAt s ((a + j) % s.cluster.size) = some MEMBER_UNAVAILABLE) ∧
      s.heap[(a + k) % s.cluster.size]? = some m ∧ m.status = MEMBER_AVAILABLE ∧
      GetMember s = some ((GetHttpNodeURL s.cluster m, none),
        withActive s ((a + k) % s.cluster.size)) := by
  have halt : a < s.cluster.size := hwf.active_lt ha
  have hP : ∃ k, k < s.cluster.size ∧
      statusAt s ((a + k) % s.cluster.size) = some MEMBER_AVAILABLE := by
    obtain ⟨i, hi, hav⟩ := hex
    obtain ⟨k, hk, hki⟩ := ring_offset halt hi
    exact ⟨k, hk, by rw [hki]; exact hav⟩
  have hk := Nat.find_spec hP
  have hmin : ∀ j, j < Nat.find hP →
      statusAt s ((a + j) % s.cluster.size) ≠ some MEMBER_AVAILABLE := by
    intro j hj hav
    exact Nat.find_min hP hj ⟨by omega, hav⟩
  obtain ⟨m, hm, _, _⟩ := hwf.member (Nat.mod_lt (a + Nat.find hP) hwf.1)
  have hav : m.status = MEMBER_AVAILABLE := by
    have := hk.2
    rw [statusAt, hm] at this
    exact Option.some.inj this
  refine ⟨Nat.find hP, m, hk.1, ?_, hm, hav, ?_⟩
  · intro j hj
    exact hwf.unavailable_of_ne (Nat.mod_lt _ hwf.1) (hmin j hj)
  · have := getMemberLoop_found s hwf (Nat.find hP) s.cluster.size a halt hk.1 hmin m hm hav
    rw [withActive_self s a ha] at this
    exact this

/-- `GetMember` on a ring without an available member: the scan goes once
round and fails. -/
theorem getMember_fail (s : State) (hwf : WellFormed s) (a : Nat)
    (ha : s.cluster.active = some a)
    (hall : ∀ i, i < s.cluster.size → statusAt s i ≠ some MEMBER_AVAILABLE) :
    GetMember s = some (("", some errNoMembers), s) := by
  have halt : a < s.cluster.size := hwf.active_lt ha
  have := getMemberLoop_none s hwf s.cluster.size a halt
    (fun j _ => hall _ (Nat.mod_lt _ hwf.1))
  rw [Nat.add_mod_right, Nat.mod_eq_of_lt halt, withActive_self s a ha] at this
  exact this

theorem available_ne_unavailable : (some MEMBER_AVAILABLE : Option Int) ≠ some MEMBER_UNAVAILABLE := by
  decide

/-- Writing a status through a pointer into the ring keeps the state
well formed, whatever else of the cluster changes apart from `size` and
`members`. -/
theorem wellFormed_set_status (s : State) (hwf : WellFormed s) (a : Nat) (m : Member)
    (v : Int) (hv : v = MEMBER_AVAILABLE ∨ v = MEMBER_UNAVAILABLE)
    (c : Cluster) (hsize : c.size = s.cluster.size) (hmem : c.members = s.cluster.members)
    (hact : ∃ x, x < s.cluster.size ∧ c.active = some x)
    (probes : List Nat) (hp : ∀ p, p ∈ probes → p < s.cluster.size)
    (hm : s.heap[a]? = some m) :
    WellFormed { cluster := c, heap := s.heap.set a { m with status := v }, probes := probes } := by
  obtain ⟨h1, h2, h3, _, h5, h6, _⟩ := hwf
  refine ⟨by simpa [hsize] using h1, by simpa [hsize] using h2, by simpa [hmem] using h3,
    by simpa [hsize] using hact, ?_, ?_, by simpa [hsize] using hp⟩
  · intro i hi
    simp only [hsize] at hi ⊢
    have := h5 i hi
    simp only [nextAt] at this ⊢
    by_cases hia : a = i
    · subst hia
      have hlt : a < s.heap.length := by omega
      rw [hm] at this
      simpa [List.getElem?_set_self hlt] using this
    · rw [List.getElem?_set_ne hia]
      exact this
  · intro i hi
    simp only [hsize] at hi
    have := h6 i hi
    simp only [statusAt] at this ⊢
    by_cases hia : a = i
    · subst hia
      have hlt : a < s.heap.length := by omega
      rw [List.getElem?_set_self hlt]
      rcases hv with rfl | rfl
      · exact Or.inl rfl
      · exact Or.inr rfl
    · rw [List.getElem?_set_ne hia]
      exact this

/-- What `MarkDown` computes on a well-formed state. -/
theorem markDown_eq (s : State) (hwf : WellFormed s) (a : Nat) (ha : s.cluster.active = some a) :
    ∃ m, s.heap[a]? = some m ∧
      MarkDown s = some
        { cluster := { s.cluster with active := some ((a + 1) % s.cluster.size) },
          heap := s.heap.set a { m with status := MEMBER_UNAVAILABLE },
          probes := s.probes ++ [a] } := by
  have halt : a < s.cluster.size := hwf.active_lt ha
  obtain ⟨m, hm, hnx, _⟩ := hwf.member halt
  have hlt : a < s.heap.length := by
    have := hwf.2.1
    omega
  refine ⟨m, hm, ?_⟩
  simp [MarkDown, ha, setStatus, hm, deref, List.getElem?_set_self hlt, hnx]

/-- `MarkDown` keeps a state well formed. -/
theorem markDown_wellFormed (s s1 : State) (hwf : WellFormed s) (h : MarkDown s = some s1) :
    WellFormed s1 ∧ s1.cluster.url = s.cluster.url ∧ s1.cluster.size = s.cluster.size := by
  obtain ⟨a, halt, ha⟩ := hwf.2.2.2.1
  obtain ⟨m, hm, heq⟩ := markDown_eq s hwf a ha
  rw [heq] at h
  cases h
  refine ⟨?_, rfl, rfl⟩
  refine wellFormed_set_status s hwf a m MEMBER_UNAVAILABLE (Or.inr rfl)
    { s.cluster with active := some ((a + 1) % s.cluster.size) } rfl rfl
    ⟨(a + 1) % s.cluster.size, Nat.mod_lt _ hwf.1, rfl⟩ (s.probes ++ [a]) ?_ hm
  intro p hp
  rcases List.mem_append.1 hp with h1 | h1
  · exact hwf.2.2.2.2.2.2 p h1
  · simp at h1
    omega

/-- A probe's success step keeps a state well formed. -/
theorem probeSuccess_wellFormed (k : Nat) (s : State) (hwf : WellFormed s) :
    ∃ s1, probeSuccess k s = some s1 ∧ WellFormed s1 ∧ s1.cluster = s.cluster := by
  unfold probeSuccess
  cases hk : s.probes[k]? with
  | none => exact ⟨s, rfl, hwf, rfl⟩
  | some a =>
    have halt : a < s.cluster.size := hwf.2.2.2.2.2.2 a (List.getElem?_mem hk)
    obtain ⟨m, hm, _, _⟩ := hwf.member halt
    refine ⟨{ s with heap := s.heap.set a { m with status := MEMBER_AVAILABLE },
                     probes := s.probes.eraseIdx k }, by simp only [setStatus, hm], ?_, rfl⟩
    refine wellFormed_set_status s hwf a m MEMBER_AVAILABLE (Or.inl rfl) s.cluster rfl rfl
      hwf.2.2.2.1 (s.probes.eraseIdx k) ?_ hm
    intro p hp
    exact hwf.2.2.2.2.2.2 p (List.mem_of_mem_eraseIdx hp)

/-- `GetMember` returns on a well-formed state, and moves the cursor only. -/
theorem getMember_wellFormed (s : State) (hwf : WellFormed s) :
    ∃ r x, x < s.cluster.size ∧ GetMember s = some (r, withActive s x) := by
  obtain ⟨a, halt, ha⟩ := hwf.2.2.2.1
  by_cases hex : ∃ i, i < s.cluster.size ∧ statusAt s i = some MEMBER_AVAILABLE
  · obtain ⟨k, m, _, _, _, _, hget⟩ := getMember_scan s hwf a ha hex
    exact ⟨_, _, Nat.mod_lt _ hwf.1, hget⟩
  · have hget := getMember_fail s hwf a ha (fun i hi hav => hex ⟨i, hi, hav⟩)
    exact ⟨_, a, halt, by rw [withActive_self s a ha]; exact hget⟩

/-- Every step keeps a state well formed and leaves `url` and `size` alone. -/
theorem applyOp_wellFormed (s : State) (hwf : WellFormed s) (op : Op) :
    ∃ s1, applyOp s op = some s1 ∧ WellFormed s1 ∧
      s1.cluster.url = s.cluster.url ∧ s1.cluster.size = s.cluster.size := by
  cases op with
  | getMember =>
    obtain ⟨r, x, hx, hget⟩ := getMember_wellFormed s hwf
    exact ⟨withActive s x, by simp [applyOp, hget], hwf.withActive hx, rfl, rfl⟩
  | markDown =>
    obtain ⟨a, _, ha⟩ := hwf.2.2.2.1
    obtain ⟨m, _, heq⟩ := markDown_eq s hwf a ha
    obtain ⟨h1, h2, h3⟩ := markDown_wellFormed s _ hwf heq
    exact ⟨_, heq, h1, h2, h3⟩
  | probeOk k =>
    obtain ⟨s1, h1, h2, h3⟩ := probeSuccess_wellFormed k s hwf
    exact ⟨s1, h1, h2, by rw [h3], by rw [h3]⟩

/-- Every run of steps from a well-formed state ends, in a well-formed state
with the same `url` and `size`. -/
theorem runOps_wellFormed (ops : List Op) :
    ∀ s : State, WellFormed s →
      ∃ s1, runOps ops s = some s1 ∧ WellFormed s1 ∧
        s1.cluster.url = s.cluster.url ∧ s1.cluster.size = s.cluster.size := by
  induction ops with
  | nil => exact fun s hwf => ⟨s, rfl, hwf, rfl, rfl⟩
  | cons op ops ih =>
    intro s hwf
    obtain ⟨s1, h1, hwf1, hu1, hs1⟩ := applyOp_wellFormed s hwf op
    obtain ⟨s2, h2, hwf2, hu2, hs2⟩ := ih s1 hwf1
    exact ⟨s2, by simp [runOps, h1, h2], hwf2, hu2.trans hu1, hs2.trans hs1⟩

/-! ## The constructor builds the ring -/

theorem splitComma_length (cs : List Char) :
    ∀ cur, (splitComma cs cur).length = cs.count ',' + 1 := by
  induction cs with
  | nil => intro cur; rfl
  | cons c cs ih =>
    intro cur
    by_cases hc : c = ','
    · subst hc
      simp [splitComma, ih]
    · have hc2 : (c == ',') = false := by simpa using hc
      simp [splitComma, hc, ih, List.count_cons, hc2]

theorem SplitN_length (s : String) : (SplitN s).length = s.data.count ',' + 1 := by
  simp [SplitN, splitComma_length]

theorem buildStep_inv (c0 : Cluster) (done : List String) (host : String) (b : BuildState)
    (hpos : 0 < done.length) (hinv : BuildInv c0 done b) :
    ∃ b1, buildStep done.length host b = some b1 ∧ BuildInv c0 (done ++ [host]) b1 := by
  obtain ⟨hc, hprev, hlen, hheap⟩ := hinv
  have hne : done.length ≠ 0 := by omega
  have hlast := hheap (done.length - 1) (by omega)
  have hd : done[done.length - 1]? = some (done[done.length - 1]) :=
    List.getElem?_eq_getElem (by omega)
  rw [hd] at hlast
  simp only [Option.map_some', show ¬ (done.length - 1 + 1 < done.length) by omega,
    if_false] at hlast
  have hlast2 : (b.heap ++ [({ hostname := host, status := 0, next := none } : Member)])[done.length - 1]?
      = some { hostname := done[done.length - 1], status := 0, next := none } := by
    rw [List.getElem?_append_left (by omega)]
    exact hlast
  refine ⟨{ cluster := { b.cluster with size := b.cluster.size + 1 },
            heap := (b.heap ++ [({ hostname := host, status := 0, next := none } : Member)]).set
              (done.length - 1)
              { hostname := done[done.length - 1], status := 0, next := some b.heap.length },
            previous := some b.heap.length },
    by simp only [buildStep, hne, if_false, hprev, setNext, hlast2], ?_⟩
  refine ⟨by simp [hc, hlen], by simp [hlen], by simp [hlen], ?_⟩
  intro i hi
  simp only [List.length_append, List.length_singleton] at hi ⊢
  by_cases h1 : i = done.length
  · subst h1
    rw [List.getElem?_set_ne (by omega)]
    have e1 : (b.heap ++ [({ hostname := host, status := 0, next := none } : Member)])[done.length]?
        = some { hostname := host, status := 0, next := none } := by
      rw [← hlen]
      exact List.getElem?_concat_length _ _
    have e2 : (done ++ [host])[done.length]? = some host := List.getElem?_concat_length _ _
    rw [e1, e2]
    simp
  · have hi2 : i < done.length := by omega
    have e2 : (done ++ [host])[i]? = done[i]? := List.getElem?_append_left hi2
    rw [e2]
    by_cases h2 : i = done.length - 1
    · subst h2
      rw [List.getElem?_set_self (by simp; omega), hd]
      simp [hlen, show done.length - 1 + 1 = done.length by omega]
    · rw [List.getElem?_set_ne (by omega), List.getElem?_append_left (by omega), hheap i hi2]
      have e3 : i + 1 < done.length := by omega
      have e4 : i + 1 < done.length + 1 := by omega
      simp [e3, e4]

theorem buildLoop_inv (c0 : Cluster) (rest : List String) :
    ∀ (done : List String) (b : BuildState), 0 < done.length → BuildInv c0 done b →
      ∃ b1, buildLoop rest done.length b = some b1 ∧ BuildInv c0 (done ++ rest) b1 := by
  induction rest with
  | nil =>
    intro done b _ hinv
    exact ⟨b, rfl, by simpa using hinv⟩
  | cons host rest ih =>
    intro done b hpos hinv
    obtain ⟨b1, hstep, hinv1⟩ := buildStep_inv c0 done host b hpos hinv
    obtain ⟨b2, hloop, hinv2⟩ := ih (done ++ [host]) b1 (by simp) hinv1
    refine ⟨b2, ?_, by simpa using hinv2⟩
    simp only [buildLoop, hstep]
    simpa using hloop

/-- The whole loop of the constructor, started on the empty heap. -/
theorem buildLoop_spec (c0 : Cluster) (h0 : c0.size = 0) (host : String) (rest : List String) :
    ∃ b, buildLoop (host :: rest) 0 { cluster := c0, heap := [], previous := none } = some b ∧
      BuildInv c0 (host :: rest) b := by
  have hfirst : BuildInv c0 [host]
      { cluster := { c0 with size := c0.size + 1, members := some 0, active := some 0 },
        heap := [{ hostname := host, status := 0, next := none }], previous := some 0 } := by
    refine ⟨by simp [h0], rfl, rfl, ?_⟩
    intro i hi
    have : i = 0 := by simpa using hi
    subst this
    rfl
  obtain ⟨b, hloop, hinv⟩ := buildLoop_inv c0 rest [host] _ (by simp) hfirst
  exact ⟨b, by simpa [buildLoop, buildStep] using hloop, by simpa using hinv⟩

/-- What the constructor returns for a string that parses with scheme `http`
or `https`: the ring of the host pieces, all available, the cursor on the
first. -/
theorem newHttpCluster_spec (parse : String → Option URL) (url healthCheck : String) (u : URL)
    (hparse : parse url = some u) (hscheme : u.Scheme = "http" ∨ u.Scheme = "https") :
    ∃ st, NewHttpCluster parse url healthCheck = some (some st, none) ∧
      st.cluster = { url := url, members := some 0, size := (SplitN u.Host).length,
                     protocol := u.Scheme, active := some 0, healthCheckUri := "" } ∧
      st.probes = [] ∧
      0 < (SplitN u.Host).length ∧
      st.heap.length = (SplitN u.Host).length ∧
      ∀ i, i < (SplitN u.Host).length →
        st.heap[i]? = ((SplitN u.Host)[i]?).map
          (fun h => { hostname := h, status := 0, next := some ((i + 1) % (SplitN u.Host).length) }) := by
  have hpos : 0 < (SplitN u.Host).length := by rw [SplitN_length]; omega
  generalize hh : SplitN u.Host = hosts at hpos ⊢
  obtain ⟨host, rest, hsplit⟩ : ∃ host rest, hosts = host :: rest := by
    cases hosts with
    | nil => simp at hpos
    | cons host rest => exact ⟨host, rest, rfl⟩
  have hsch : ¬ (u.Scheme ≠ "http" ∧ u.Scheme ≠ "https") := by
    rcases hscheme with h | h <;> simp [h]
  obtain ⟨b, hloop, hc, hprev, hlen, hheap⟩ := buildLoop_spec
    { url := url, members := none, size := 0, protocol := u.Scheme, active := none,
      healthCheckUri := "" } rfl host rest
  rw [← hsplit] at hloop hc hprev hlen hheap
  clear hsplit
  have hlast := hheap (hosts.length - 1) (by omega)
  have hd : hosts[hosts.length - 1]? = some (hosts[hosts.length - 1]) :=
    List.getElem?_eq_getElem (by omega)
  rw [hd] at hlast
  simp only [Option.map_some', show ¬ (hosts.length - 1 + 1 < hosts.length) by omega,
    if_false] at hlast
  simp only at hc
  refine ⟨{ cluster := b.cluster,
            heap := b.heap.set (hosts.length - 1)
              { hostname := hosts[hosts.length - 1], status := 0, next := some 0 },
            probes := [] }, ?_, ?_, rfl, hpos, by simp [hlen], ?_⟩
  · simp only [NewHttpCluster, hparse, hsch, if_false, hh, hloop, hprev, setNext, hlast, hc]
  · simp [hc]
  · intro i hi
    simp only
    by_cases h2 : i = hosts.length - 1
    · subst h2
      rw [List.getElem?_set_self (by omega), hd]
      simp [show hosts.length - 1 + 1 = hosts.length by omega]
    · rw [List.getElem?_set_ne (by omega), hheap i hi]
      have e3 : i + 1 < hosts.length := by omega
      simp [e3, Nat.mod_eq_of_lt e3]

/-- A string the constructor accepts parses, with scheme `http` or `https`. -/
theorem newHttpCluster_inv (parse : String → Option URL) (url healthCheck : String)
    (st : State) (h : NewHttpCluster parse url healthCheck = some (some st, none)) :
    ∃ u, parse url = some u ∧ (u.Scheme = "http" ∨ u.Scheme = "https") := by
  cases hp : parse url with
  | none => simp [NewHttpCluster, hp] at h
  | some u =>
    refine ⟨u, rfl, ?_⟩
    by_contra hne
    have hsch : u.Scheme ≠ "http" ∧ u.Scheme ≠ "https" := by
      constructor <;> intro h1 <;> simp [h1] at hne
    simp [NewHttpCluster, hp, hsch] at h

/-- The state the constructor returns for a string it accepts. -/
theorem newHttpCluster_accepted (parse : String → Option URL) (url healthCheck : String)
    (st : State) (h : NewHttpCluster parse url healthCheck = some (some st, none)) :
    ∃ u, parse url = some u ∧ (u.Scheme = "http" ∨ u.Scheme = "https") ∧
      st.cluster = { url := url, members := some 0, size := (SplitN u.Host).length,
                     protocol := u.Scheme, active := some 0, healthCheckUri := "" } ∧
      st.probes = [] ∧
      0 < (SplitN u.Host).length ∧
      st.heap.length = (SplitN u.Host).length ∧
      ∀ i, i < (SplitN u.Host).length →
        st.heap[i]? = ((SplitN u.Host)[i]?).map
          (fun h => { hostname := h, status := 0, next := some ((i + 1) % (SplitN u.Host).length) }) := by
  obtain ⟨u, hparse, hscheme⟩ := newHttpCluster_inv parse url healthCheck st h
  obtain ⟨st1, h1, hrest⟩ := newHttpCluster_spec parse url healthCheck u hparse hscheme
  rw [h1] at h
  simp only [Option.some.injEq, Prod.mk.injEq, and_true] at h
  subst h
  exact ⟨u, hparse, hscheme, hrest⟩

/-- The state the constructor returns is well formed. -/
theorem newHttpCluster_wellFormed (parse : String → Option URL) (url healthCheck : String)
    (st : State) (h : NewHttpCluster parse url healthCheck = some (some st, none)) :
    WellFormed st := by
  obtain ⟨u, _, _, hc, hp, hpos, hlen, hheap⟩ := newHttpCluster_accepted parse url healthCheck st h
  have hsize : st.cluster.size = (SplitN u.Host).length := by rw [hc]
  refine ⟨by omega, by omega, by rw [hc], ⟨0, by omega, by rw [hc]⟩, ?_, ?_, ?_⟩
  · intro i hi
    rw [hsize] at hi ⊢
    rw [nextAt, hheap i hi, List.getElem?_eq_getElem hi]
    rfl
  · intro i hi
    rw [hsize] at hi
    left
    rw [statusAt, hheap i hi, List.getElem?_eq_getElem hi]
    rfl
  · intro p hp1
    rw [hp] at hp1
    simp at hp1

/-- The hostnames on the heap the constructor returns are the host pieces. -/
theorem newHttpCluster_hostnames (parse : String → Option URL) (url healthCheck : String)
    (st : State) (h : NewHttpCluster parse url healthCheck = some (some st, none)) :
    ∃ u, parse url = some u ∧ st.heap.map (fun m => m.hostname) = SplitN u.Host := by
  obtain ⟨u, hparse, _, _, _, _, hlen, hheap⟩ := newHttpCluster_accepted parse url healthCheck st h
  refine ⟨u, hparse, ?_⟩
  apply List.ext_getElem?
  intro i
  rw [List.getElem?_map]
  by_cases hi : i < (SplitN u.Host).length
  · rw [hheap i hi, List.getElem?_eq_getElem hi]
    rfl
  · rw [List.getElem?_eq_none (by omega), List.getElem?_eq_none (by omega)]
    rfl

/-- The run of the constructor on `http://a,b`. -/
theorem newHttpCluster_ab (healthCheck : String) :
    NewHttpCluster simpleParse "http://a,b" healthCheck = some (some abFresh, none) := by
  rfl

/-! ## What the introspection loops compute -/

/-- The loop of `Active()` reads the same member at every iteration: it adds
that member's hostname `n` times when it is available, nothing otherwise. -/
theorem activeLoop_eq (heap : List Member) (p : Option Nat) (m : Member)
    (hm : deref heap p = some m) :
    ∀ (n : Nat) (list : List String),
      activeLoop heap p n list =
        some (list ++ if m.status = MEMBER_AVAILABLE then List.replicate n m.hostname else []) := by
  intro n
  induction n with
  | zero => intro list; simp [activeLoop]
  | succ n ih =>
    intro list
    by_cases hs : m.status = MEMBER_AVAILABLE
    · simp [activeLoop, hm, hs, ih, List.replicate_succ]
    · simp [activeLoop, hm, hs, ih]

/-- The loop of `NonActive()` reads the same member at every iteration. -/
theorem nonActiveLoop_eq (heap : List Member) (p : Option Nat) (m : Member)
    (hm : deref heap p = some m) :
    ∀ (n : Nat) (list : List String),
      nonActiveLoop heap p n list =
        some (list ++ if m.status = MEMBER_UNAVAILABLE then List.replicate n m.hostname else []) := by
  intro n
  induction n with
  | zero => intro list; simp [nonActiveLoop]
  | succ n ih =>
    intro list
    by_cases hs : m.status = MEMBER_UNAVAILABLE
    · simp [nonActiveLoop, hm, hs, ih, List.replicate_succ]
    · simp [nonActiveLoop, hm, hs, ih]

/-- `Active()` on a well-formed state: `size` copies of the active member's
hostname when that member is available, the empty list otherwise. -/
theorem active_eq (s : State) (hwf : WellFormed s) (a : Nat) (ha : s.cluster.active = some a) :
    ∃ m, s.heap[a]? = some m ∧
      Active s = some (if m.status = MEMBER_AVAILABLE
        then List.replicate s.cluster.size m.hostname else []) := by
  obtain ⟨m, hm, _, _⟩ := hwf.member (hwf.active_lt ha)
  refine ⟨m, hm, ?_⟩
  rw [Active, activeLoop_eq s.heap s.cluster.active m (by rw [ha]; exact hm)]
  simp

/-- `NonActive()` on a well-formed state: `size` copies of the active member's
hostname when that member is unavailable, the empty list otherwise. -/
theorem nonActive_eq (s : State) (hwf : WellFormed s) (a : Nat)
    (ha : s.cluster.active = some a) :
    ∃ m, s.heap[a]? = some m ∧
      NonActive s = some (if m.status = MEMBER_UNAVAILABLE
        then List.replicate s.cluster.size m.hostname else []) := by
  obtain ⟨m, hm, _, _⟩ := hwf.member (hwf.active_lt ha)
  refine ⟨m, hm, ?_⟩
  rw [NonActive, nonActiveLoop_eq s.heap s.cluster.active m (by rw [ha]; exact hm)]
  simp

/-! ## Runs of steps from the constructed state -/

theorem runOps_append (ops1 ops2 : List Op) :
    ∀ s : State, runOps (ops1 ++ ops2) s = (runOps ops1 s).bind (runOps ops2) := by
  induction ops1 with
  | nil => intro s; rfl
  | cons op ops1 ih =>
    intro s
    cases h : applyOp s op with
    | none => simp [runOps, h]
    | some s1 => simp [runOps, h, ih]

/-- `GetMember` when the member under the cursor is available. -/
theorem getMember_at_active (s : State) (hwf : WellFormed s) (a : Nat) (m : Member)
    (ha : s.cluster.active = some a) (hm : s.heap[a]? = some m)
    (hav : m.status = MEMBER_AVAILABLE) :
    GetMember s = some ((GetHttpNodeURL s.cluster m, none), s) := by
  have halt : a < s.cluster.size := hwf.active_lt ha
  have e : (a + 0) % s.cluster.size = a := by rw [Nat.add_zero, Nat.mod_eq_of_lt halt]
  have := getMemberLoop_found s hwf 0 s.cluster.size a halt hwf.1
    (fun j hj => absurd hj (Nat.not_lt_zero j)) m (by rw [e]; exact hm) hav
  rw [e, withActive_self s a ha] at this
  exact this

/-- The facts about one `MarkDown` that runs of steps need. -/
theorem markDown_step (s : State) (hwf : WellFormed s) (a : Nat)
    (ha : s.cluster.active = some a) :
    ∃ s1, MarkDown s = some s1 ∧ WellFormed s1 ∧
      s1.cluster = { s.cluster with active := some ((a + 1) % s.cluster.size) } ∧
      s1.probes = s.probes ++ [a] ∧
      statusAt s1 a = some MEMBER_UNAVAILABLE ∧
      (∀ i, i ≠ a → statusAt s1 i = statusAt s i) ∧
      (∀ i, hostnameAt s1 i = hostnameAt s i) := by
  have hlt : a < s.heap.length := by
    have := hwf.2.1
    have := hwf.active_lt ha
    omega
  obtain ⟨m, hm, heq⟩ := markDown_eq s hwf a ha
  refine ⟨_, heq, (markDown_wellFormed s _ hwf heq).1, rfl, rfl, ?_, ?_, ?_⟩
  · simp [statusAt, List.getElem?_set_self hlt]
  · intro i hi
    simp only [statusAt]
    rw [List.getElem?_set_ne (fun h => hi h.symm)]
  · intro i
    simp only [hostnameAt]
    by_cases hia : a = i
    · subst hia
      rw [List.getElem?_set_self hlt, hm]
      rfl
    · rw [List.getElem?_set_ne hia]

/-- The state the constructor returns: well formed, the cursor on the first
member, every member available, the hostnames the host pieces. -/
theorem newHttpCluster_fresh (parse : String → Option URL) (url healthCheck : String)
    (st : State) (h : NewHttpCluster parse url healthCheck = some (some st, none)) :
    ∃ u, parse url = some u ∧ WellFormed st ∧
      st.cluster.size = (SplitN u.Host).length ∧
      st.cluster.protocol = u.Scheme ∧
      st.cluster.healthCheckUri = "" ∧
      st.cluster.active = some 0 ∧
      (∀ i, i < st.cluster.size → statusAt st i = some MEMBER_AVAILABLE) ∧
      (∀ i, hostnameAt st i = (SplitN u.Host)[i]?) := by
  obtain ⟨u, hparse, _, hc, _, _, hlen, hheap⟩ :=
    newHttpCluster_accepted parse url healthCheck st h
  have hsize : st.cluster.size = (SplitN u.Host).length := by rw [hc]
  refine ⟨u, hparse, newHttpCluster_wellFormed parse url healthCheck st h, hsize,
    by rw [hc], by rw [hc], by rw [hc], ?_, ?_⟩
  · intro i hi
    rw [hsize] at hi
    rw [statusAt, hheap i hi, List.getElem?_eq_getElem hi]
    rfl
  · intro i
    by_cases hi : i < (SplitN u.Host).length
    · rw [hostnameAt, hheap i hi, List.getElem?_eq_getElem hi]
      rfl
    · rw [hostnameAt, List.getElem?_eq_none (by omega), List.getElem?_eq_none (by omega)]
      rfl

/-- The state after `k` consecutive `MarkDown` steps from a state with the
cursor on the first member and every member available, for `k` up to `size`:
the first `k` members are unavailable, the others available, and the cursor is
`k` members on. -/
theorem markDowns_from_fresh (s : State) (hwf : WellFormed s)
    (hact : s.cluster.active = some 0)
    (hav : ∀ i, i < s.cluster.size → statusAt s i = some MEMBER_AVAILABLE) :
    ∀ k, k ≤ s.cluster.size →
      ∃ sk, runOps (List.replicate k Op.markDown) s = some sk ∧ WellFormed sk ∧
        sk.cluster = { s.cluster with active := some (k % s.cluster.size) } ∧
        (∀ i, i < s.cluster.size →
          statusAt sk i = some (if i < k then MEMBER_UNAVAILABLE else MEMBER_AVAILABLE)) ∧
        (∀ i, hostnameAt sk i = hostnameAt s i) := by
  intro k
  induction k with
  | zero =>
    intro _
    refine ⟨s, rfl, hwf, ?_, ?_, fun _ => rfl⟩
    · rw [Nat.zero_mod]
      exact (congrArg State.cluster (withActive_self s 0 hact)).symm
    · intro i hi
      simpa using hav i hi
  | succ k ih =>
    intro hk
    obtain ⟨sk, hrun, hwfk, hck, hstat, hhost⟩ := ih (by omega)
    have hsz : sk.cluster.size = s.cluster.size := by rw [hck]
    have hactk : sk.cluster.active = some k := by
      rw [hck]
      simp only
      rw [Nat.mod_eq_of_lt (by omega)]
    obtain ⟨s1, hmd, hwf1, hc1, _, hsa, hso, hsh⟩ := markDown_step sk hwfk k hactk
    refine ⟨s1, ?_, hwf1, ?_, ?_, ?_⟩
    · rw [List.replicate_succ', runOps_append, hrun]
      simp [runOps, applyOp, hmd]
    · rw [hc1, hck]
    · intro i hi
      by_cases hik : i = k
      · subst hik
        rw [hsa]
        simp
      · rw [hso i hik, hstat i hi]
        have : (i < k + 1) ↔ (i < k) := by omega
        simp only [this]
    · intro i
      rw [hsh i, hhost i]

/-- Following `next` on a well-formed heap counts round the ring. -/
theorem follow_eq (s : State) (hwf : WellFormed s) :
    ∀ (k i : Nat), i < s.cluster.size →
      follow s.heap (some i) k = some ((i + k) % s.cluster.size) := by
  intro k
  induction k with
  | zero =>
    intro i hi
    rw [Nat.add_zero, Nat.mod_eq_of_lt hi]
    rfl
  | succ k ih =>
    intro i hi
    obtain ⟨m, hm, hnx, _⟩ := hwf.member hi
    simp only [follow, deref, hm, hnx]
    rw [ih _ (Nat.mod_lt _ hwf.1), Nat.mod_add_mod]
    congr 2
    omega

/-- A well-formed state has the ring invariant. -/
theorem WellFormed.isRing {s : State} (hwf : WellFormed s) : IsRing s := by
  obtain ⟨hpos, hlen, hmem, ⟨a, halt, hact⟩, hnext, _, _⟩ := id hwf
  have hf : ∀ k, follow s.heap s.cluster.members k = some (k % s.cluster.size) := by
    intro k
    rw [hmem, follow_eq s hwf k 0 hpos, Nat.zero_add]
  refine ⟨hlen, ?_, by rw [hmem]; simp, ?_, ?_, ?_, ⟨a, halt, ?_⟩, ?_⟩
  · intro i m hm
    have hi : i < s.cluster.size := by
      have := (List.getElem?_eq_some.1 hm).1
      omega
    obtain ⟨m1, hm1, hnx, _⟩ := hwf.member hi
    rw [hm] at hm1
    cases hm1
    rw [hnx]
    simp
  · intro k _
    rw [hf]
    simp
  · intro j k hjk hk
    rw [hf, hf, Nat.mod_eq_of_lt hk, Nat.mod_eq_of_lt (by omega)]
    intro he
    have := Option.some.inj he
    omega
  · rw [hf, Nat.mod_self, hmem]
  · rw [hf, Nat.mod_eq_of_lt halt, hact]
  · obtain ⟨m, hm, hnx, _⟩ := hwf.member halt
    exact ⟨m, _, by rw [hact]; exact hm, hnx⟩

/-- The constructor never panics. -/
theorem newHttpCluster_returns (parse : String → Option URL) (url healthCheck : String) :
    NewHttpCluster parse url healthCheck ≠ none := by
  cases hp : parse url with
  | none => simp [NewHttpCluster, hp]
  | some u =>
    by_cases hsch : u.Scheme = "http" ∨ u.Scheme = "https"
    · obtain ⟨st, hst, _⟩ := newHttpCluster_spec parse url healthCheck u hp hsch
      rw [hst]
      simp
    · have h2 : u.Scheme ≠ "http" ∧ u.Scheme ≠ "https" := by
        constructor <;> intro h1 <;> exact hsch (by simp [h1])
      simp [NewHttpCluster, hp, h2]

/-! ## Endpoint selection -/

/-- C1: on a well-formed state with an available member, `GetMember` returns
without error `protocol ++ "://" ++ hostname` of the first available member met
walking the ring forward from `active` (all members passed before it are
unavailable), the cursor ends on that member, and nothing else changes. -/
theorem getMember_first_available (s : State) (hwf : WellFormed s) (a : Nat)
    (ha : s.cluster.active = some a)
    (hex : ∃ i, i < s.cluster.size ∧ statusAt s i = some MEMBER_AVAILABLE) :
    ∃ k m, k < s.cluster.size ∧
      (∀ j, j < k → statusAt s ((a + j) % s.cluster.size) = some MEMBER_UNAVAILABLE) ∧
      s.heap[(a + k) % s.cluster.size]? = some m ∧ m.status = MEMBER_AVAILABLE ∧
      GetMember s = some ((s.cluster.protocol ++ "://" ++ m.hostname, none),
        { s with cluster := { s.cluster with active := some ((a + k) % s.cluster.size) } }) :=
  getMember_scan s hwf a ha hex

/-- C1, on three members with the cursor on the second and only the first
one up: the scan wraps round. -/
theorem getMember_first_available_witness :
    WellFormed abcDown ∧
    ∃ k m, k < abcDown.cluster.size ∧
      (∀ j, j < k → statusAt abcDown ((1 + j) % abcDown.cluster.size) = some MEMBER_UNAVAILABLE) ∧
      abcDown.heap[(1 + k) % abcDown.cluster.size]? = some m ∧ m.status = MEMBER_AVAILABLE ∧
      GetMember abcDown = some ((abcDown.cluster.protocol ++ "://" ++ m.hostname, none),
        { abcDown with
          cluster := { abcDown.cluster with active := some ((1 + k) % abcDown.cluster.size) } }) :=
  ⟨by decide, getMember_first_available abcDown (by decide) 1 rfl ⟨0, by decide, by decide⟩⟩

/-- C2: on a well-formed state `GetMember` returns (it does not panic); its
error is the no-members error exactly when every member of the ring is
unavailable, and it is nil, with an endpoint returned, exactly when some member
is available. -/
theorem getMember_error_iff (s : State) (hwf : WellFormed s) :
    ∃ r, GetMember s = some r ∧
      (r.1.2 = some errNoMembers ↔
        ∀ i, i < s.cluster.size → statusAt s i = some MEMBER_UNAVAILABLE) ∧
      (r.1.2 = none ↔ ∃ i, i < s.cluster.size ∧ statusAt s i = some MEMBER_AVAILABLE) ∧
      (r.1.2 = some errNoMembers → r.1.1 = "") := by
  obtain ⟨a, halt, ha⟩ := hwf.2.2.2.1
  by_cases hex : ∃ i, i < s.cluster.size ∧ statusAt s i = some MEMBER_AVAILABLE
  · obtain ⟨k, m, _, _, _, _, hget⟩ := getMember_scan s hwf a ha hex
    refine ⟨_, hget, ?_, ?_, ?_⟩
    · constructor
      · intro h
        simp at h
      · intro hall
        obtain ⟨i, hi, hav⟩ := hex
        rw [hall i hi] at hav
        exact absurd hav.symm available_ne_unavailable
    · simp [hex]
    · intro h
      simp at h
  · have hall : ∀ i, i < s.cluster.size → statusAt s i ≠ some MEMBER_AVAILABLE :=
      fun i hi hav => hex ⟨i, hi, hav⟩
    refine ⟨_, getMember_fail s hwf a ha hall, ?_, ?_, ?_⟩
    · simp only [true_iff]
      exact fun i hi => hwf.unavailable_of_ne hi (hall i hi)
    · simp [hex]
    · intro _
      rfl

/-- C2, on the three-member ring with one member up. -/
theorem getMember_error_iff_witness :
    WellFormed abcDown ∧
    ∃ r, GetMember abcDown = some r ∧
      (r.1.2 = some errNoMembers ↔
        ∀ i, i < abcDown.cluster.size → statusAt abcDown i = some MEMBER_UNAVAILABLE) ∧
      (r.1.2 = none ↔
        ∃ i, i < abcDown.cluster.size ∧ statusAt abcDown i = some MEMBER_AVAILABLE) ∧
      (r.1.2 = some errNoMembers → r.1.1 = "") :=
  ⟨by decide, getMember_error_iff abcDown (by decide)⟩

/-! ## Failure marking -/

/-- C3: on a well-formed state `MarkDown` returns; the member `active`
pointed to is unavailable afterwards (also when it was already), `active`
points to its successor in the ring (the member itself when `size` is 1), one
probe is started, bound to the member just marked, and the status of every
other member, all hostnames and links, `size`, `url`, `protocol`, `members` and
`healthCheckUri` are as before. -/
theorem markDown_effect (s : State) (hwf : WellFormed s) (a : Nat)
    (ha : s.cluster.active = some a) :
    ∃ s1, MarkDown s = some s1 ∧
      statusAt s1 a = some MEMBER_UNAVAILABLE ∧
      s1.cluster.active = some ((a + 1) % s.cluster.size) ∧
      (s.cluster.size = 1 → s1.cluster.active = some a) ∧
      s1.probes = s.probes ++ [a] ∧
      (∀ i, i ≠ a → statusAt s1 i = statusAt s i) ∧
      (∀ i, hostnameAt s1 i = hostnameAt s i) ∧
      (∀ i, nextAt s1 i = nextAt s i) ∧
      s1.heap.length = s.heap.length ∧
      s1.cluster.size = s.cluster.size ∧
      s1.cluster.url = s.cluster.url ∧
      s1.cluster.protocol = s.cluster.protocol ∧
      s1.cluster.members = s.cluster.members ∧
      s1.cluster.healthCheckUri = s.cluster.healthCheckUri := by
  have halt : a < s.cluster.size := hwf.active_lt ha
  have hlt : a < s.heap.length := by
    have := hwf.2.1
    omega
  obtain ⟨m, hm, heq⟩ := markDown_eq s hwf a ha
  refine ⟨_, heq, ?_, rfl, ?_, rfl, ?_, ?_, ?_, by simp, rfl, rfl, rfl, rfl, rfl⟩
  · simp [statusAt, List.getElem?_set_self hlt]
  · intro h1
    have : a = 0 := by omega
    subst this
    simp [h1]
  · intro i hi
    simp only [statusAt]
    rw [List.getElem?_set_ne (fun h => hi h.symm)]
  · intro i
    simp only [hostnameAt]
    by_cases hia : a = i
    · subst hia
      rw [List.getElem?_set_self hlt, hm]
      rfl
    · rw [List.getElem?_set_ne hia]
  · intro i
    simp only [nextAt]
    by_cases hia : a = i
    · subst hia
      rw [List.getElem?_set_self hlt, hm]
      rfl
    · rw [List.getElem?_set_ne hia]

/-- C3, on the three-member ring whose active member `b` is already down. -/
theorem markDown_effect_witness :
    WellFormed abcDown ∧
    ∃ s1, MarkDown abcDown = some s1 ∧
      statusAt s1 1 = some MEMBER_UNAVAILABLE ∧
      s1.cluster.active = some ((1 + 1) % abcDown.cluster.size) ∧
      (abcDown.cluster.size = 1 → s1.cluster.active = some 1) ∧
      s1.probes = abcDown.probes ++ [1] ∧
      (∀ i, i ≠ 1 → statusAt s1 i = statusAt abcDown i) ∧
      (∀ i, hostnameAt s1 i = hostnameAt abcDown i) ∧
      (∀ i, nextAt s1 i = nextAt abcDown i) ∧
      s1.heap.length = abcDown.heap.length ∧
      s1.cluster.size = abcDown.cluster.size ∧
      s1.cluster.url = abcDown.cluster.url ∧
      s1.cluster.protocol = abcDown.cluster.protocol ∧
      s1.cluster.members = abcDown.cluster.members ∧
      s1.cluster.healthCheckUri = abcDown.cluster.healthCheckUri :=
  ⟨by decide, markDown_effect abcDown (by decide) 1 rfl⟩

/-! ## Introspection -/

/-- C4 (the code at a failing input): on the fresh two-member ring `a`, `b`,
both available, `Active()` is `a` twice, where the walk round the ring gives
`a`, `b`; on the three-member ring with `b` and `c` down and the cursor on `b`,
`NonActive()` is `b` three times, where the walk gives `b`, `c`.  The loops of
`Active` and `NonActive` never advance `member`. -/
theorem active_nonActive_read_one_member :
    WellFormed abFresh ∧
    Active abFresh = some ["a", "a"] ∧ ringScan abFresh MEMBER_AVAILABLE = ["a", "b"] ∧
    WellFormed abcDown ∧
    NonActive abcDown = some ["b", "b", "b"] ∧ ringScan abcDown MEMBER_UNAVAILABLE = ["b", "c"] := by
  decide

/-- C5 (the code at a failing input): for the test fixture, whose host pieces
are `127.0.0.1:3000` and `127.0.0.1:3001`, `Active()` right after construction
is the first hostname twice; its length is 2 and `NonActive()` is empty. -/
theorem active_after_construction_repeats_first :
    NewHttpCluster simpleParse FAKE_HTTP_CLUSTER_URL FAKE_HEALTH_CHECK_URI
      = some (some fakeFresh, none) ∧
    fakeFresh.heap.map (fun m => m.hostname) = ["127.0.0.1:3000", "127.0.0.1:3001"] ∧
    Active fakeFresh = some ["127.0.0.1:3000", "127.0.0.1:3000"] ∧
    NonActive fakeFresh = some [] := by
  decide

/-! ## Construction -/

/-- C6: for a string the constructor accepts, `Size()` is the number of commas
of the parsed host plus one, and the heap holds one member per comma-separated
piece, in the order listed, with that piece as hostname. -/
theorem size_counts_host_pieces (parse : String → Option URL) (url healthCheck : String)
    (st : State) (h : NewHttpCluster parse url healthCheck = some (some st, none)) :
    ∃ u, parse url = some u ∧
      Size st = u.Host.data.count ',' + 1 ∧
      st.heap.length = Size st ∧
      st.heap.map (fun m => m.hostname) = SplitN u.Host := by
  obtain ⟨u, hparse, _, hc, _, _, hlen, _⟩ := newHttpCluster_accepted parse url healthCheck st h
  obtain ⟨u1, hparse1, hnames⟩ := newHttpCluster_hostnames parse url healthCheck st h
  rw [hparse] at hparse1
  cases hparse1
  refine ⟨u, hparse, ?_, ?_, hnames⟩
  · rw [Size, hc, ← SplitN_length]
  · rw [Size, hc, hlen]

/-- C6, on the test fixture: `Size()` is 2 (and on `http://a,a,b`, where a
hostname is listed twice, it is 3). -/
theorem size_counts_host_pieces_witness :
    (NewHttpCluster simpleParse FAKE_HTTP_CLUSTER_URL FAKE_HEALTH_CHECK_URI
      = some (some fakeFresh, none) ∧ Size fakeFresh = 2 ∧
     (NewHttpCluster simpleParse "http://a,a,b" "/").map (fun r => r.1.map Size)
      = some (some 3)) ∧
    ∃ u, simpleParse FAKE_HTTP_CLUSTER_URL = some u ∧
      Size fakeFresh = u.Host.data.count ',' + 1 ∧
      fakeFresh.heap.length = Size fakeFresh ∧
      fakeFresh.heap.map (fun m => m.hostname) = SplitN u.Host :=
  ⟨by decide,
   size_counts_host_pieces simpleParse FAKE_HTTP_CLUSTER_URL FAKE_HEALTH_CHECK_URI fakeFresh
     (by decide)⟩

/-- C7: for a string the constructor accepts, `Url()` is that string, and
after every sequence of `GetMember`, `MarkDown` and probe-success steps (each
of which returns) `Url()` and `Size()` are what they were. -/
theorem url_and_size_fixed (parse : String → Option URL) (url healthCheck : String)
    (st : State) (h : NewHttpCluster parse url healthCheck = some (some st, none)) :
    Url st = url ∧
    ∀ ops : List Op, ∃ st1, runOps ops st = some st1 ∧ Url st1 = url ∧ Size st1 = Size st := by
  obtain ⟨u, _, _, hc, _⟩ := newHttpCluster_accepted parse url healthCheck st h
  have hurl : Url st = url := by rw [Url, hc]
  refine ⟨hurl, ?_⟩
  intro ops
  obtain ⟨st1, hrun, _, hu, hs⟩ :=
    runOps_wellFormed ops st (newHttpCluster_wellFormed parse url healthCheck st h)
  exact ⟨st1, hrun, by rw [Url, hu]; exact hurl, hs⟩

/-- C7, on the test fixture. -/
theorem url_and_size_fixed_witness :
    NewHttpCluster simpleParse FAKE_HTTP_CLUSTER_URL FAKE_HEALTH_CHECK_URI
      = some (some fakeFresh, none) ∧
    Url fakeFresh = FAKE_HTTP_CLUSTER_URL ∧
    ∀ ops : List Op, ∃ st1, runOps ops fakeFresh = some st1 ∧
      Url st1 = FAKE_HTTP_CLUSTER_URL ∧ Size st1 = Size fakeFresh :=
  ⟨by decide,
   url_and_size_fixed simpleParse FAKE_HTTP_CLUSTER_URL FAKE_HEALTH_CHECK_URI fakeFresh
     (by decide)⟩

/-- C8: the constructor returns nil and the invalid-endpoint error when the
string does not parse, and when it parses with a scheme other than `http` and
`https`; when it parses with scheme `http` or `https` it returns a cluster and
no error, and the cluster's protocol is that scheme. -/
theorem newHttpCluster_error_iff (parse : String → Option URL) (url healthCheck : String) :
    (parse url = none →
      NewHttpCluster parse url healthCheck = some (none, some errInvalidEndpoint)) ∧
    (∀ u, parse url = some u → u.Scheme ≠ "http" → u.Scheme ≠ "https" →
      NewHttpCluster parse url healthCheck = some (none, some errInvalidEndpoint)) ∧
    (∀ u, parse url = some u → u.Scheme = "http" ∨ u.Scheme = "https" →
      ∃ st, NewHttpCluster parse url healthCheck = some (some st, none) ∧
        st.cluster.protocol = u.Scheme) := by
  refine ⟨?_, ?_, ?_⟩
  · intro hp
    simp [NewHttpCluster, hp]
  · intro u hp h1 h2
    simp [NewHttpCluster, hp, h1, h2]
  · intro u hp hscheme
    obtain ⟨st, hst, hc, _⟩ := newHttpCluster_spec parse url healthCheck u hp hscheme
    exact ⟨st, hst, by rw [hc]⟩

/-- C8, on `://host` (no scheme: a parse error), `ftp://host` and
`https://host`. -/
theorem newHttpCluster_error_iff_witness :
    NewHttpCluster simpleParse "://host" "/" = some (none, some errInvalidEndpoint) ∧
    NewHttpCluster simpleParse "ftp://host" "/" = some (none, some errInvalidEndpoint) ∧
    ∃ st, NewHttpCluster simpleParse "https://host" "/" = some (some st, none) ∧
      st.cluster.protocol = "https" :=
  ⟨(newHttpCluster_error_iff simpleParse "://host" "/").1 (by decide),
   (newHttpCluster_error_iff simpleParse "ftp://host" "/").2.1
     { Scheme := "ftp", Host := "host" } (by decide) (by decide) (by decide),
   (newHttpCluster_error_iff simpleParse "https://host" "/").2.2
     { Scheme := "https", Host := "host" } (by decide) (Or.inr rfl)⟩

/-- C9: for a string the constructor accepts, with parsed scheme `p` and first
host piece `h1`, the first `GetMember()` returns `p ++ "://" ++ h1` and no
error, and leaves the state as it was. -/
theorem first_getMember (parse : String → Option URL) (url healthCheck : String)
    (st : State) (h : NewHttpCluster parse url healthCheck = some (some st, none)) :
    ∃ u h1, parse url = some u ∧ (SplitN u.Host).head? = some h1 ∧
      GetMember st = some ((u.Scheme ++ "://" ++ h1, none), st) := by
  obtain ⟨u, hparse, _, hc, _, hpos, _, hheap⟩ :=
    newHttpCluster_accepted parse url healthCheck st h
  have hwf := newHttpCluster_wellFormed parse url healthCheck st h
  have h0 := hheap 0 hpos
  rw [List.getElem?_eq_getElem hpos] at h0
  simp only [Option.map_some'] at h0
  refine ⟨u, (SplitN u.Host)[0], hparse, ?_, ?_⟩
  · rw [List.head?_eq_getElem?, List.getElem?_eq_getElem hpos]
  · have hact : st.cluster.active = some 0 := by rw [hc]
    have hsz : 0 < st.cluster.size := hwf.1
    have := getMemberLoop_found st hwf 0 st.cluster.size 0 hsz hsz
      (fun j hj => absurd hj (Nat.not_lt_zero j)) _
      (by rw [Nat.add_zero, Nat.zero_mod]; exact h0) rfl
    rw [Nat.add_zero, Nat.zero_mod, withActive_self st 0 hact] at this
    rw [GetMember, this, GetHttpNodeURL, hc]

/-- C9, on the test fixture: the first `GetMember()` returns
`http://127.0.0.1:3000`. -/
theorem first_getMember_witness :
    (NewHttpCluster simpleParse FAKE_HTTP_CLUSTER_URL FAKE_HEALTH_CHECK_URI
      = some (some fakeFresh, none) ∧
     GetMember fakeFresh = some (("http://127.0.0.1:3000", none), fakeFresh)) ∧
    ∃ u h1, simpleParse FAKE_HTTP_CLUSTER_URL = some u ∧ (SplitN u.Host).head? = some h1 ∧
      GetMember fakeFresh = some ((u.Scheme ++ "://" ++ h1, none), fakeFresh) :=
  ⟨by decide,
   first_getMember simpleParse FAKE_HTTP_CLUSTER_URL FAKE_HEALTH_CHECK_URI fakeFresh (by decide)⟩

/-- C10 (the code at the failing input): on `http://a,b`, after one
`MarkDown()` and no probe step, member `a` is unavailable, `Active()` is `b`
twice and `NonActive()` is empty, so `a` is not in `NonActive()`. -/
theorem marked_member_missing_from_nonActive :
    NewHttpCluster simpleParse "http://a,b" "/" = some (some abFresh, none) ∧
    MarkDown abFresh = some abMarked ∧
    hostnameAt abMarked 0 = some "a" ∧ statusAt abMarked 0 = some MEMBER_UNAVAILABLE ∧
    Active abMarked = some ["b", "b"] ∧
    NonActive abMarked = some [] ∧
    ringScan abMarked MEMBER_UNAVAILABLE = ["a"] := by
  decide

/-! ## Mark-down followed by selection -/

/-- C11: for a string the constructor accepts with at least two host pieces,
scheme `p` and second piece `h2`, `MarkDown()` returns and the `GetMember()`
after it returns `p ++ "://" ++ h2` and no error. -/
theorem getMember_after_markDown (parse : String → Option URL) (url healthCheck : String)
    (st : State) (h : NewHttpCluster parse url healthCheck = some (some st, none))
    (hN : 2 ≤ Size st) :
    ∃ u h2 st1, parse url = some u ∧ (SplitN u.Host)[1]? = some h2 ∧
      MarkDown st = some st1 ∧
      GetMember st1 = some ((u.Scheme ++ "://" ++ h2, none), st1) := by
  obtain ⟨u, hparse, hwf, _, hproto, _, hact, hav, hhost⟩ :=
    newHttpCluster_fresh parse url healthCheck st h
  have hN2 : 2 ≤ st.cluster.size := hN
  obtain ⟨st1, hmd, hwf1, hc1, _, _, hso, hsh⟩ := markDown_step st hwf 0 hact
  have hsz : st1.cluster.size = st.cluster.size := by rw [hc1]
  have hact1 : st1.cluster.active = some 1 := by
    rw [hc1]
    simp only
    rw [Nat.zero_add, Nat.mod_eq_of_lt (by omega)]
  obtain ⟨m, hm, _, _⟩ := hwf1.member (show 1 < st1.cluster.size by omega)
  have hs1 : m.status = MEMBER_AVAILABLE := by
    have := hso 1 (by omega)
    rw [hav 1 (by omega), statusAt, hm] at this
    exact Option.some.inj this
  have hh1 : (SplitN u.Host)[1]? = some m.hostname := by
    have := hsh 1
    rw [hhost 1, hostnameAt, hm] at this
    exact this.symm
  refine ⟨u, m.hostname, st1, hparse, hh1, hmd, ?_⟩
  rw [getMember_at_active st1 hwf1 1 m hact1 hm hs1, GetHttpNodeURL, hc1, hproto]

/-- C11, on `http://a,b`: after `MarkDown()`, `GetMember()` returns
`http://b`. -/
theorem getMember_after_markDown_witness :
    (NewHttpCluster simpleParse "http://a,b" "/" = some (some abFresh, none) ∧
     MarkDown abFresh = some abMarked ∧
     GetMember abMarked = some (("http://b", none), abMarked)) ∧
    ∃ u h2 st1, simpleParse "http://a,b" = some u ∧ (SplitN u.Host)[1]? = some h2 ∧
      MarkDown abFresh = some st1 ∧
      GetMember st1 = some ((u.Scheme ++ "://" ++ h2, none), st1) :=
  ⟨by decide,
   getMember_after_markDown simpleParse "http://a,b" "/" abFresh (by decide) (by decide)⟩

/-- C12: for a string the constructor accepts, giving a cluster of size `N`:
after `k < N` consecutive `MarkDown()` steps `GetMember()` returns an endpoint
and no error; after `N` of them every member is unavailable and `GetMember()`
returns the no-members error. -/
theorem markDown_all_then_getMember_fails (parse : String → Option URL)
    (url healthCheck : String) (st : State)
    (h : NewHttpCluster parse url healthCheck = some (some st, none)) :
    (∀ k, k < Size st →
      ∃ sk e, runOps (List.replicate k Op.markDown) st = some sk ∧
        GetMember sk = some ((e, none), sk)) ∧
    (∃ sN, runOps (List.replicate (Size st) Op.markDown) st = some sN ∧
      (∀ i, i < Size st → statusAt sN i = some MEMBER_UNAVAILABLE) ∧
      GetMember sN = some (("", some errNoMembers), sN)) := by
  obtain ⟨u, _, hwf, _, _, _, hact, hav, _⟩ := newHttpCluster_fresh parse url healthCheck st h
  constructor
  · intro k hk
    have hk2 : k < st.cluster.size := hk
    obtain ⟨sk, hrun, hwfk, hck, hstat, _⟩ := markDowns_from_fresh st hwf hact hav k (by omega)
    have hsz : sk.cluster.size = st.cluster.size := by rw [hck]
    have hactk : sk.cluster.active = some k := by
      rw [hck]
      simp only
      rw [Nat.mod_eq_of_lt hk2]
    obtain ⟨m, hm, _, _⟩ := hwfk.member (show k < sk.cluster.size by omega)
    have hs : m.status = MEMBER_AVAILABLE := by
      have := hstat k hk2
      rw [statusAt, hm] at this
      simpa using this
    exact ⟨sk, _, hrun, getMember_at_active sk hwfk k m hactk hm hs⟩
  · obtain ⟨sN, hrun, hwfN, hcN, hstat, _⟩ :=
      markDowns_from_fresh st hwf hact hav st.cluster.size (Nat.le_refl _)
    have hsz : sN.cluster.size = st.cluster.size := by rw [hcN]
    have hall : ∀ i, i < st.cluster.size → statusAt sN i = some MEMBER_UNAVAILABLE := by
      intro i hi
      have := hstat i hi
      simpa [hi] using this
    have hactN : sN.cluster.active = some 0 := by
      rw [hcN]
      simp only
      rw [Nat.mod_self]
    refine ⟨sN, hrun, hall, getMember_fail sN hwfN 0 hactN ?_⟩
    intro i hi
    rw [hall i (by omega)]
    exact fun he => available_ne_unavailable he.symm

/-- C12, on `http://a,b`: after one `MarkDown()`, `GetMember()` returns
`http://b`; after two, both members are down and it fails. -/
theorem markDown_all_then_getMember_fails_witness :
    (NewHttpCluster simpleParse "http://a,b" "/" = some (some abFresh, none) ∧
     runOps [Op.markDown, Op.markDown] abFresh = some abAllDown ∧
     GetMember abAllDown = some (("", some errNoMembers), abAllDown)) ∧
    (∀ k, k < Size abFresh →
      ∃ sk e, runOps (List.replicate k Op.markDown) abFresh = some sk ∧
        GetMember sk = some ((e, none), sk)) ∧
    (∃ sN, runOps (List.replicate (Size abFresh) Op.markDown) abFresh = some sN ∧
      (∀ i, i < Size abFresh → statusAt sN i = some MEMBER_UNAVAILABLE) ∧
      GetMember sN = some (("", some errNoMembers), sN)) :=
  ⟨by decide,
   markDown_all_then_getMember_fails simpleParse "http://a,b" "/" abFresh (by decide)⟩

/-! ## The health probe -/

/-- C13 (the code at a failing input): for the cluster built from `http://a,b`
with health-check path `/health`, the probe that `MarkDown()` starts for member
`a` requests `http://a`: the constructor leaves `healthCheckUri` empty. -/
theorem probe_url_lacks_health_check_path :
    NewHttpCluster simpleParse "http://a,b" "/health" = some (some abFresh, none) ∧
    abFresh.cluster.healthCheckUri = "" ∧
    MarkDown abFresh = some abMarked ∧
    abMarked.probes = [0] ∧
    hostnameAt abMarked 0 = some "a" ∧
    probeURL abMarked 0 = some "http://a" ∧
    probeURL abMarked 0 ≠ some "http://a/health" := by
  decide

/-- C14 (the code at a failing input): on `http://a,b`, after `MarkDown()` and
the success step of the probe of `a`, every status is what it was before, and
`NonActive()` is empty, but `Active()` is `b` twice: `a` is not reported by
`Active()`. -/
theorem recovered_member_missing_from_active :
    NewHttpCluster simpleParse "http://a,b" "/" = some (some abFresh, none) ∧
    MarkDown abFresh = some abMarked ∧
    probeSuccess 0 abMarked = some abRecovered ∧
    abRecovered.heap = abFresh.heap ∧
    hostnameAt abRecovered 0 = some "a" ∧ statusAt abRecovered 0 = some MEMBER_AVAILABLE ∧
    Active abRecovered = some ["b", "b"] ∧
    NonActive abRecovered = some [] ∧
    ringScan abRecovered MEMBER_AVAILABLE = ["b", "a"] := by
  decide

/-! ## Repeated selection -/

/-- C15: when `GetMember` on a well-formed state returns endpoint `e` without
error, leaving state `s1`, then `GetMember` on `s1` returns `e` again and
leaves `s1` as it is; so after any number of `GetMember` steps from `s1` the
state is still `s1`, and the next `GetMember` returns `e`. -/
theorem getMember_idempotent (s : State) (hwf : WellFormed s) (e : String) (s1 : State)
    (h : GetMember s = some ((e, none), s1)) :
    GetMember s1 = some ((e, none), s1) ∧
    ∀ n, runOps (List.replicate n Op.getMember) s1 = some s1 := by
  obtain ⟨a, halt, ha⟩ := hwf.2.2.2.1
  have hex : ∃ i, i < s.cluster.size ∧ statusAt s i = some MEMBER_AVAILABLE := by
    by_contra hne
    have := getMember_fail s hwf a ha (fun i hi hav => hne ⟨i, hi, hav⟩)
    rw [this] at h
    simp at h
  obtain ⟨k, m, _, _, hm, hav, hget⟩ := getMember_scan s hwf a ha hex
  rw [hget] at h
  simp only [Option.some.injEq, Prod.mk.injEq, and_true] at h
  obtain ⟨he, hs1⟩ := h
  have hx : (a + k) % s.cluster.size < s.cluster.size := Nat.mod_lt _ hwf.1
  have hagain : GetMember s1 = some ((e, none), s1) := by
    rw [← hs1, ← he]
    exact getMember_at_active (withActive s ((a + k) % s.cluster.size)) (hwf.withActive hx)
      ((a + k) % s.cluster.size) m rfl hm hav
  refine ⟨hagain, ?_⟩
  intro n
  induction n with
  | zero => rfl
  | succ n ih =>
    rw [List.replicate_succ]
    simp only [runOps, applyOp, hagain, Option.map_some']
    exact ih

/-- C15, on the three-member ring whose cursor is on a member that is down:
`GetMember` moves the cursor to `a` and returns `https://a`, and does so
again. -/
theorem getMember_idempotent_witness :
    (WellFormed abcDown ∧
      GetMember abcDown = some (("https://a", none), withActive abcDown 0)) ∧
    GetMember (withActive abcDown 0) = some (("https://a", none), withActive abcDown 0) ∧
    ∀ n, runOps (List.replicate n Op.getMember) (withActive abcDown 0)
      = some (withActive abcDown 0) :=
  ⟨by decide,
   getMember_idempotent abcDown (by decide) "https://a" (withActive abcDown 0) (by decide)⟩

/-! ## The length of `Active()` -/

/-- C16: for a string the constructor accepts with `N ≥ 2` host pieces,
`Active()` has `N` entries right after construction and also after one
`MarkDown()`. -/
theorem active_length_after_markDown (parse : String → Option URL) (url healthCheck : String)
    (st : State) (h : NewHttpCluster parse url healthCheck = some (some st, none))
    (hN : 2 ≤ Size st) :
    ∃ l0 st1 l1, Active st = some l0 ∧ l0.length = Size st ∧
      MarkDown st = some st1 ∧ Active st1 = some l1 ∧ l1.length = Size st := by
  obtain ⟨u, _, hwf, _, _, _, hact, hav, _⟩ := newHttpCluster_fresh parse url healthCheck st h
  have hN2 : 2 ≤ st.cluster.size := hN
  obtain ⟨m0, hm0, hA0⟩ := active_eq st hwf 0 hact
  have hs0 : m0.status = MEMBER_AVAILABLE := by
    have := hav 0 (by omega)
    rw [statusAt, hm0] at this
    exact Option.some.inj this
  obtain ⟨st1, hmd, hwf1, hc1, _, _, hso, _⟩ := markDown_step st hwf 0 hact
  have hsz : st1.cluster.size = st.cluster.size := by rw [hc1]
  have hact1 : st1.cluster.active = some 1 := by
    rw [hc1]
    simp only
    rw [Nat.zero_add, Nat.mod_eq_of_lt (by omega)]
  obtain ⟨m1, hm1, hA1⟩ := active_eq st1 hwf1 1 hact1
  have hs1 : m1.status = MEMBER_AVAILABLE := by
    have := hso 1 (by omega)
    rw [hav 1 (by omega), statusAt, hm1] at this
    exact Option.some.inj this
  rw [if_pos hs0] at hA0
  rw [if_pos hs1, hsz] at hA1
  exact ⟨_, st1, _, hA0, by simp [Size], hmd, hA1, by simp [Size]⟩

/-- C16, on the test fixture: `Active()` has 2 entries before and after
`MarkDown()`. -/
theorem active_length_after_markDown_witness :
    (NewHttpCluster simpleParse FAKE_HTTP_CLUSTER_URL FAKE_HEALTH_CHECK_URI
      = some (some fakeFresh, none) ∧
     (Active fakeFresh).map List.length = some 2 ∧
     MarkDown fakeFresh = some fakeMarked ∧
     (Active fakeMarked).map List.length = some 2) ∧
    ∃ l0 st1 l1, Active fakeFresh = some l0 ∧ l0.length = Size fakeFresh ∧
      MarkDown fakeFresh = some st1 ∧ Active st1 = some l1 ∧ l1.length = Size fakeFresh :=
  ⟨by decide,
   active_length_after_markDown simpleParse FAKE_HTTP_CLUSTER_URL FAKE_HEALTH_CHECK_URI
     fakeFresh (by decide) (by decide)⟩

/-! ## The ring -/

/-- C17: for a string the constructor accepts, every sequence of `GetMember`,
`MarkDown` and probe-success steps from the returned state runs to a state
with the ring invariant: every `next` non-nil, one cycle of length `size` from
the first member, `active` on it, and the `next` of the active member not
nil. -/
theorem ring_invariant (parse : String → Option URL) (url healthCheck : String)
    (st : State) (h : NewHttpCluster parse url healthCheck = some (some st, none)) :
    ∀ ops : List Op, ∃ st1, runOps ops st = some st1 ∧ IsRing st1 := by
  intro ops
  obtain ⟨st1, hrun, hwf1, _, _⟩ :=
    runOps_wellFormed ops st (newHttpCluster_wellFormed parse url healthCheck st h)
  exact ⟨st1, hrun, hwf1.isRing⟩

/-- C17, on the test fixture. -/
theorem ring_invariant_witness :
    NewHttpCluster simpleParse FAKE_HTTP_CLUSTER_URL FAKE_HEALTH_CHECK_URI
      = some (some fakeFresh, none) ∧
    ∀ ops : List Op, ∃ st1, runOps ops fakeFresh = some st1 ∧ IsRing st1 :=
  ⟨by decide,
   ring_invariant simpleParse FAKE_HTTP_CLUSTER_URL FAKE_HEALTH_CHECK_URI fakeFresh (by decide)⟩

/-- C18: the constructor never panics, and a cluster it returns has
`Size()` at least 1 and non-nil `members` and `active` pointing to members on
the heap; `GetMember` on it returns. -/
theorem constructed_ring_nonempty (parse : String → Option URL) (url healthCheck : String) :
    NewHttpCluster parse url healthCheck ≠ none ∧
    ∀ st, NewHttpCluster parse url healthCheck = some (some st, none) →
      1 ≤ Size st ∧
      (∃ m, deref st.heap st.cluster.members = some m) ∧
      (∃ m, deref st.heap st.cluster.active = some m) ∧
      (∃ r, GetMember st = some r) := by
  refine ⟨newHttpCluster_returns parse url healthCheck, ?_⟩
  intro st h
  have hwf := newHttpCluster_wellFormed parse url healthCheck st h
  obtain ⟨a, halt, hact⟩ := hwf.2.2.2.1
  obtain ⟨m0, hm0, _, _⟩ := hwf.member hwf.1
  obtain ⟨ma, hma, _, _⟩ := hwf.member halt
  obtain ⟨r, x, _, hget⟩ := getMember_wellFormed st hwf
  exact ⟨hwf.1, ⟨m0, by rw [hwf.2.2.1]; exact hm0⟩, ⟨ma, by rw [hact]; exact hma⟩, _, hget⟩

/-- C18, on `http://`, whose host is empty: the cluster has one member. -/
theorem constructed_ring_nonempty_witness :
    (NewHttpCluster simpleParse "http://" "/" = some (some emptyHostFresh, none) ∧
     Size emptyHostFresh = 1) ∧
    1 ≤ Size emptyHostFresh ∧
    (∃ m, deref emptyHostFresh.heap emptyHostFresh.cluster.members = some m) ∧
    (∃ m, deref emptyHostFresh.heap emptyHostFresh.cluster.active = some m) ∧
    (∃ r, GetMember emptyHostFresh = some r) :=
  ⟨by decide,
   (constructed_ring_nonempty simpleParse "http://" "/").2 emptyHostFresh (by decide)⟩

/-! ## Failed selection -/

/-- C20: on a well-formed state whose members are all unavailable,
`GetMember` returns the no-members error and leaves the state as it was; the
scan moves the cursor one member per iteration, so after `size` iterations it
is back on the member it started from. -/
theorem getMember_failure_keeps_state (s : State) (hwf : WellFormed s) (a : Nat)
    (ha : s.cluster.active = some a)
    (hall : ∀ i, i < s.cluster.size → statusAt s i = some MEMBER_UNAVAILABLE) :
    GetMember s = some (("", some errNoMembers), s) ∧
    (∀ n, getMemberLoop s n =
      some (("", some errNoMembers), withActive s ((a + n) % s.cluster.size))) ∧
    withActive s ((a + s.cluster.size) % s.cluster.size) = s := by
  have halt : a < s.cluster.size := hwf.active_lt ha
  have hne : ∀ i, i < s.cluster.size → statusAt s i ≠ some MEMBER_AVAILABLE := by
    intro i hi
    rw [hall i hi]
    exact fun he => available_ne_unavailable he.symm
  refine ⟨getMember_fail s hwf a ha hne, ?_, ?_⟩
  · intro n
    have := getMemberLoop_none s hwf n a halt (fun j _ => hne _ (Nat.mod_lt _ hwf.1))
    rw [withActive_self s a ha] at this
    exact this
  · rw [Nat.add_mod_right, Nat.mod_eq_of_lt halt]
    exact withActive_self s a ha

/-- C20, on `http://a,b` with both members down. -/
theorem getMember_failure_keeps_state_witness :
    WellFormed abAllDown ∧
    GetMember abAllDown = some (("", some errNoMembers), abAllDown) ∧
    (∀ n, getMemberLoop abAllDown n =
      some (("", some errNoMembers), withActive abAllDown ((0 + n) % abAllDown.cluster.size))) ∧
    withActive abAllDown ((0 + abAllDown.cluster.size) % abAllDown.cluster.size) = abAllDown :=
  ⟨by decide,
   getMember_failure_keeps_state abAllDown (by decide) 0 rfl (by decide)⟩

end HttpCluster
